import Mathlib

-- Shallow embedding of the trace cache layer of the ckb-vm emulator
-- (src/machine/trace.rs), together with spec-modelled external
-- collaborators (decoder, instruction executor, memory subsystem and
-- machine state, which live outside src/ and are specified in the
-- natural-language spec only at their interfaces).

namespace CkbVm

/-- Error kinds of the VM (spec §7: the error enum itself lives outside
`src/`; only the kinds the spec names are modelled). -/
inductive Error where
  | decodeError
  | memFault
  | cycleLimitExceeded
  | hostCallError
deriving DecidableEq

-- Constants from src/machine/trace.rs (lines 15-23).
def TRACE_SIZE : Nat := 8192

def TRACE_MASK : Nat := TRACE_SIZE - 1

def TRACE_ITEM_LENGTH : Nat := 16

def TRACE_ITEM_MAXIMAL_ADDRESS_LENGTH : Nat := 4 * TRACE_ITEM_LENGTH

def TRACE_ADDRESS_SHIFTS : Nat := 5

/-- `calculate_slot` from src/machine/trace.rs lines 33-36:
`(addr >> TRACE_ADDRESS_SHIFTS) & TRACE_MASK`. -/
def calculate_slot (addr : Nat) : Nat :=
  (addr >>> TRACE_ADDRESS_SHIFTS) &&& TRACE_MASK

/-- Pointwise update of a function, modelling writing one cell of an
array or byte of a memory. -/
def upd {α : Type} (f : Nat → α) (a : Nat) (v : α) : Nat → α :=
  fun x => if x = a then v else f x

/-- `Trace` from src/machine/trace.rs lines 25-31.  The source stores a
fixed `[Instruction; TRACE_ITEM_LENGTH]` array of which only the first
`instruction_count` entries are ever read (the execution loop iterates
`0..instruction_count`); we model the array by the list of its meaningful
prefix. -/
structure Trace (Instr : Type) where
  address : Nat
  length : Nat
  instruction_count : Nat
  instructions : List Instr

instance {Instr : Type} : Inhabited (Trace Instr) :=
  ⟨⟨0, 0, 0, []⟩⟩

/-- Machine execution state owned by the external `DefaultMachine`
collaborator (spec §3 "Machine execution state"): program counter,
register file, memory, cycle counter, running flag, exit code, and the
optional cycle limit used by the fallible cycle accumulator.  Registers
and memory are modelled as total functions from `Nat`. -/
structure MachineState (Mem : Type) where
  pc : Nat
  registers : Nat → Nat
  mem : Mem
  cycles : Nat
  running : Bool
  exit_code : Nat
  max_cycles : Option Nat

/-- `TraceMachine` from src/machine/trace.rs lines 38-44.  The
`traces: Vec<Trace>` vector (resized to `TRACE_SIZE` at the start of
`run`) is modelled as a total function on slot indices; only indices
below `TRACE_SIZE` are ever produced by `calculate_slot`. -/
structure TraceMachine (Instr Mem : Type) where
  machine : MachineState Mem
  traces : Nat → Trace Instr
  running_trace_slot : Nat
  running_trace_cleared : Bool

/-- Modelled from the spec: `DefaultMachine::add_cycles` is not part of
src/; the spec (§6, §7) says cycle accumulation is fallible, with
exceeding the cycle budget a `CycleLimitExceeded` fault and the absence
of a limit meaning plain accumulation. -/
def add_cycles {Mem : Type} (m : MachineState Mem) (n : Nat) :
    Except Error (MachineState Mem) :=
  match m.max_cycles with
  | some limit =>
      if limit < m.cycles + n then .error .cycleLimitExceeded
      else .ok { m with cycles := m.cycles + n }
  | none => .ok { m with cycles := m.cycles + n }

/-- `TraceMachine::clear_traces` from src/machine/trace.rs lines 259-274.
The Rust `minimal_slot..=min(maximal_slot, self.traces.len())` range is
rendered as `List.range' minimal_slot (min maximal_slot TRACE_SIZE + 1 -
minimal_slot)`: both are empty when the lower bound exceeds the upper
bound, and `self.traces.len()` is `TRACE_SIZE` once `run` has resized the
vector. -/
def clear_traces {Instr Mem : Type} (st : TraceMachine Instr Mem)
    (address length : Nat) : TraceMachine Instr Mem :=
  let e := address + length
  let minimal_slot := calculate_slot (address - TRACE_ITEM_MAXIMAL_ADDRESS_LENGTH)
  let maximal_slot := calculate_slot e
  (List.range' minimal_slot (min maximal_slot TRACE_SIZE + 1 - minimal_slot)).foldl
    (fun st slot =>
      let slot_address := (st.traces slot).address
      let slot_end := slot_address + (st.traces slot).length
      if ¬(e ≤ slot_address ∨ slot_end ≤ address) then
        { st with
          traces := upd st.traces slot default
          running_trace_cleared :=
            if st.running_trace_slot = slot then true
            else st.running_trace_cleared }
      else st)
    st

/-- Fill loop of `TraceMachine::run` (src/machine/trace.rs lines 223-234):
starting from `current_pc`, decode at most `fuel` instructions (`run`
calls it with `fuel = TRACE_ITEM_LENGTH`, matching `while i <
TRACE_ITEM_LENGTH`), advance the cursor by each instruction's byte
length, and stop early right after appending a basic-block-ending
instruction.  Returns the appended instructions in order together with
the final cursor.  The decoder is the external collaborator
`build_imac_decoder`, a pure function of the memory contents (spec §6),
passed in as `decode`. -/
def fill_go {Instr Mem : Type} (decode : Mem → Nat → Except Error Instr)
    (instruction_length : Instr → Nat)
    (is_basic_block_end_instruction : Instr → Bool) (mem : Mem) :
    Nat → Nat → Except Error (List Instr × Nat)
  | 0, current_pc => .ok ([], current_pc)
  | fuel + 1, current_pc =>
    match decode mem current_pc with
    | .error err => .error err
    | .ok instruction =>
      let next_pc := current_pc + instruction_length instruction
      if is_basic_block_end_instruction instruction then
        .ok ([instruction], next_pc)
      else
        match fill_go decode instruction_length is_basic_block_end_instruction
            mem fuel next_pc with
        | .error err => .error err
        | .ok (rest, final_pc) => .ok (instruction :: rest, final_pc)

/-- Lookup-or-fill phase of one iteration of `TraceMachine::run`
(src/machine/trace.rs lines 220-238): compute the slot of `pc`; if the
slot's trace has a different `address` or `instruction_count == 0`,
overwrite the slot with `Trace::default()` and refill it by decoding
from `pc` against current memory, recording `address`, `length =
current_pc - pc` and `instruction_count`; otherwise return the machine
unchanged.  Returns the (possibly updated) machine and the slot index.
A decode error propagates (via `?` in the source) out of `run`; the
source leaves the slot holding the default (empty) trace in that case,
which the caller of `run` never reads back through this layer. -/
def fetch_trace {Instr Mem : Type} (decode : Mem → Nat → Except Error Instr)
    (instruction_length : Instr → Nat)
    (is_basic_block_end_instruction : Instr → Bool)
    (st : TraceMachine Instr Mem) (pc : Nat) :
    Except Error (TraceMachine Instr Mem × Nat) :=
  let slot := calculate_slot pc
  if pc ≠ (st.traces slot).address ∨ (st.traces slot).instruction_count = 0 then
    match fill_go decode instruction_length is_basic_block_end_instruction
        st.machine.mem TRACE_ITEM_LENGTH pc with
    | .error err => .error err
    | .ok (instrs, final_pc) =>
      .ok ({ st with
              traces := upd (upd st.traces slot default) slot
                { address := pc
                  length := final_pc - pc
                  instruction_count := instrs.length
                  instructions := instrs } }, slot)
  else .ok (st, slot)

/-- Cycle cost of one executed instruction (src/machine/trace.rs lines
244-249): the externally configured cost function when present, 0
otherwise (`.map(|f| f(&i)).unwrap_or(0)`).  The configuration is a
field of the external `DefaultMachine`; it is immutable during a run, so
it is passed as a parameter. -/
def cycle_cost {Instr : Type} (cycle_func : Option (Instr → Nat)) (i : Instr) : Nat :=
  match cycle_func with
  | some f => f i
  | none => 0

/-- Inner instruction loop of `TraceMachine::run` (src/machine/trace.rs
lines 241-254): `for i in 0..instruction_count` — the index range is
fixed when the loop starts, but the instruction is re-read from the
current state each iteration; execute it (against the whole trace
machine, so stores re-enter `clear_traces`), add its cycle cost, and
break out as soon as `running_trace_cleared` is set.  `exec` is the
external instruction executor collaborator (spec §6). -/
def exec_loop {Instr Mem : Type} [Inhabited Instr]
    (exec : Instr → TraceMachine Instr Mem → Except Error (TraceMachine Instr Mem))
    (cycle_func : Option (Instr → Nat)) (slot : Nat) :
    List Nat → TraceMachine Instr Mem → Except Error (TraceMachine Instr Mem)
  | [], st => .ok st
  | idx :: rest, st =>
    let i := (st.traces slot).instructions.getD idx default
    match exec i st with
    | .error err => .error err
    | .ok st1 =>
      match add_cycles st1.machine (cycle_cost cycle_func i) with
      | .error err => .error err
      | .ok m2 =>
        let st2 := { st1 with machine := m2 }
        if st2.running_trace_cleared then .ok st2
        else exec_loop exec cycle_func slot rest st2

/-- One iteration of the `while self.machine.running()` loop of
`TraceMachine::run` (src/machine/trace.rs lines 218-254): read `pc`,
look up or fill the trace for it, mark the slot as the running slot,
clear the `running_trace_cleared` flag, then run the inner instruction
loop over indices `0..instruction_count`. -/
def step {Instr Mem : Type} [Inhabited Instr]
    (decode : Mem → Nat → Except Error Instr)
    (instruction_length : Instr → Nat)
    (is_basic_block_end_instruction : Instr → Bool)
    (exec : Instr → TraceMachine Instr Mem → Except Error (TraceMachine Instr Mem))
    (cycle_func : Option (Instr → Nat)) (st : TraceMachine Instr Mem) :
    Except Error (TraceMachine Instr Mem) :=
  let pc := st.machine.pc
  match fetch_trace decode instruction_length is_basic_block_end_instruction st pc with
  | .error err => .error err
  | .ok (st1, slot) =>
    let st2 := { st1 with running_trace_slot := slot, running_trace_cleared := false }
    exec_loop exec cycle_func slot
      (List.range (st2.traces slot).instruction_count) st2

/-- Outcome of a fuel-bounded run: either the running flag became false
and `run` returned the exit code, or the fuel ran out with the machine
still running (the source loop would keep iterating). -/
inductive RunOut (Instr Mem : Type) where
  | halted (code : Nat) (st : TraceMachine Instr Mem)
  | outOfFuel (st : TraceMachine Instr Mem)

/-- Fuel-indexed rendering of the `while self.machine.running()` loop of
`TraceMachine::run` followed by `Ok(self.machine.exit_code())`
(src/machine/trace.rs lines 218-256).  The running flag is tested before
fuel so that a stopped machine always yields `halted`. -/
def run_go {Instr Mem : Type} [Inhabited Instr]
    (decode : Mem → Nat → Except Error Instr)
    (instruction_length : Instr → Nat)
    (is_basic_block_end_instruction : Instr → Bool)
    (exec : Instr → TraceMachine Instr Mem → Except Error (TraceMachine Instr Mem))
    (cycle_func : Option (Instr → Nat)) :
    Nat → TraceMachine Instr Mem → Except Error (RunOut Instr Mem)
  | fuel, st =>
    if st.machine.running then
      match fuel with
      | 0 => .ok (.outOfFuel st)
      | n + 1 =>
        match step decode instruction_length is_basic_block_end_instruction
            exec cycle_func st with
        | .error err => .error err
        | .ok st' =>
          run_go decode instruction_length is_basic_block_end_instruction
            exec cycle_func n st'
    else .ok (.halted st.machine.exit_code st)

/-- `TraceMachine::run` (src/machine/trace.rs lines 211-257): set the
running flag, size the trace vector to `TRACE_SIZE` empty traces (the
vector starts empty after `new`, so on the first run every slot is the
default trace), then iterate the loop body, here bounded by `fuel`. -/
def run {Instr Mem : Type} [Inhabited Instr]
    (decode : Mem → Nat → Except Error Instr)
    (instruction_length : Instr → Nat)
    (is_basic_block_end_instruction : Instr → Bool)
    (exec : Instr → TraceMachine Instr Mem → Except Error (TraceMachine Instr Mem))
    (cycle_func : Option (Instr → Nat)) (fuel : Nat)
    (st : TraceMachine Instr Mem) : Except Error (RunOut Instr Mem) :=
  run_go decode instruction_length is_basic_block_end_instruction exec cycle_func
    fuel
    { st with
      machine := { st.machine with running := true }
      traces := fun _ => default }

-- Memory-interception wrappers (src/machine/trace.rs lines 75-180):
-- every mutating operation first performs the underlying memory
-- operation (the external memory subsystem, abstracted as a function
-- producing `Except Error Mem`), propagates its error via `?` before
-- touching the cache, and on success calls `clear_traces` over the
-- range the operation touched.  In Rust an error leaves `self` (and in
-- particular the trace cache and the cleared flag) untouched, which the
-- pair-returning shape makes explicit.

/-- Shared shape of the eight mutating wrappers: on inner success,
install the new memory and invalidate `[addr, addr+len)`; on inner
error, surface it with the trace machine unchanged. -/
def mutate_with_clear {Instr Mem : Type} (res : Except Error Mem)
    (addr len : Nat) (st : TraceMachine Instr Mem) :
    Option Error × TraceMachine Instr Mem :=
  match res with
  | .error err => (some err, st)
  | .ok mem' =>
    (none, clear_traces { st with machine := { st.machine with mem := mem' } } addr len)

/-- `mmap` wrapper (src/machine/trace.rs lines 76-89); `prot`, `source`
and `offset` are folded into the abstract inner operation, which the
core merely forwards. -/
def mmap {Instr Mem : Type} (inner : Mem → Nat → Nat → Except Error Mem)
    (st : TraceMachine Instr Mem) (addr size : Nat) :
    Option Error × TraceMachine Instr Mem :=
  mutate_with_clear (inner st.machine.mem addr size) addr size st

/-- `munmap` wrapper (src/machine/trace.rs lines 91-95). -/
def munmap {Instr Mem : Type} (inner : Mem → Nat → Nat → Except Error Mem)
    (st : TraceMachine Instr Mem) (addr size : Nat) :
    Option Error × TraceMachine Instr Mem :=
  mutate_with_clear (inner st.machine.mem addr size) addr size st

/-- `store_byte` wrapper (src/machine/trace.rs lines 97-101): fills
`size` bytes starting at `addr` with `value`. -/
def store_byte {Instr Mem : Type}
    (inner : Mem → Nat → Nat → Nat → Except Error Mem)
    (st : TraceMachine Instr Mem) (addr size value : Nat) :
    Option Error × TraceMachine Instr Mem :=
  mutate_with_clear (inner st.machine.mem addr size value) addr size st

/-- `store_bytes` wrapper (src/machine/trace.rs lines 103-107):
invalidates `value.len()` bytes from `addr`. -/
def store_bytes {Instr Mem : Type}
    (inner : Mem → Nat → List Nat → Except Error Mem)
    (st : TraceMachine Instr Mem) (addr : Nat) (value : List Nat) :
    Option Error × TraceMachine Instr Mem :=
  mutate_with_clear (inner st.machine.mem addr value) addr value.length st

/-- `store8` wrapper (src/machine/trace.rs lines 141-149): invalidates 1
byte. -/
def store8 {Instr Mem : Type} (inner : Mem → Nat → Nat → Except Error Mem)
    (st : TraceMachine Instr Mem) (addr value : Nat) :
    Option Error × TraceMachine Instr Mem :=
  mutate_with_clear (inner st.machine.mem addr value) addr 1 st

/-- `store16` wrapper (src/machine/trace.rs lines 151-159): invalidates
2 bytes. -/
def store16 {Instr Mem : Type} (inner : Mem → Nat → Nat → Except Error Mem)
    (st : TraceMachine Instr Mem) (addr value : Nat) :
    Option Error × TraceMachine Instr Mem :=
  mutate_with_clear (inner st.machine.mem addr value) addr 2 st

/-- `store32` wrapper (src/machine/trace.rs lines 161-169): invalidates
4 bytes. -/
def store32 {Instr Mem : Type} (inner : Mem → Nat → Nat → Except Error Mem)
    (st : TraceMachine Instr Mem) (addr value : Nat) :
    Option Error × TraceMachine Instr Mem :=
  mutate_with_clear (inner st.machine.mem addr value) addr 4 st

/-- `store64` wrapper (src/machine/trace.rs lines 171-179): invalidates
8 bytes. -/
def store64 {Instr Mem : Type} (inner : Mem → Nat → Nat → Except Error Mem)
    (st : TraceMachine Instr Mem) (addr value : Nat) :
    Option Error × TraceMachine Instr Mem :=
  mutate_with_clear (inner st.machine.mem addr value) addr 8 st

-- A concrete instantiation of the external collaborators, used to
-- evaluate the core on explicit inputs.  Modelled from the spec (§3,
-- §6): the decoder is a pure function of memory contents at an address,
-- an instruction carries its byte length and whether it ends a basic
-- block, and the executor applies one instruction's semantics to the
-- machine, with memory writes routed through the trace machine's
-- `Memory` implementation (so they re-enter `clear_traces`).

/-- Concrete byte-addressed memory: a total function from addresses to
byte values. -/
abbrev CMem : Type := Nat → Nat

/-- Modelled from the spec: a minimal concrete instruction set standing
in for the external decoded-instruction type.  `sb` stores the low byte
of register 0 at a 3-byte little-endian immediate address; `jmp` jumps
to a 3-byte little-endian immediate target (basic-block-ending); `halt`
stops the machine with an exit code (basic-block-ending); `li` loads an
immediate into a register; `nop` does nothing. -/
inductive CInstr where
  | nop
  | li (rd imm : Nat)
  | sb (a0 a1 a2 : Nat)
  | jmp (t0 t1 t2 : Nat)
  | halt (code : Nat)
deriving DecidableEq

instance : Inhabited CInstr := ⟨.nop⟩

/-- Modelled from the spec: the decoder collaborator for `CInstr`, a
pure function of current memory contents at the address (spec §6).
Every instruction is encoded in 4 bytes: an opcode byte followed by
operand bytes. -/
def cdecode (mem : CMem) (pc : Nat) : Except Error CInstr :=
  match mem pc with
  | 0 => .ok (.halt (mem (pc + 1)))
  | 1 => .ok (.li (mem (pc + 1)) (mem (pc + 2)))
  | 2 => .ok (.sb (mem (pc + 1)) (mem (pc + 2)) (mem (pc + 3)))
  | 3 => .ok (.jmp (mem (pc + 1)) (mem (pc + 2)) (mem (pc + 3)))
  | 4 => .ok .nop
  | _ => .error .decodeError

/-- Byte length of a concrete instruction: all are 4 bytes wide. -/
def clen : CInstr → Nat := fun _ => 4

/-- Basic-block-ending classification for `CInstr` (jumps and halts end
a block). -/
def cend : CInstr → Bool
  | .jmp _ _ _ => true
  | .halt _ => true
  | _ => false

/-- Concrete inner memory subsystem store of one byte (always
succeeds). -/
def cstore8 (mem : CMem) (addr value : Nat) : Except Error CMem :=
  .ok (upd mem addr (value % 256))

/-- Modelled from the spec: the instruction executor collaborator for
`CInstr`, acting on the whole trace machine so that its stores go
through the `store8` wrapper and hence through `clear_traces` (spec §2:
the executor "may call into the Memory subsystem, which in turn calls
back into the Invalidation Engine"). -/
def cexec (i : CInstr) (st : TraceMachine CInstr CMem) :
    Except Error (TraceMachine CInstr CMem) :=
  match i with
  | .nop => .ok { st with machine := { st.machine with pc := st.machine.pc + 4 } }
  | .li rd imm =>
    .ok { st with machine :=
      { st.machine with
        registers := upd st.machine.registers rd imm
        pc := st.machine.pc + 4 } }
  | .sb a0 a1 a2 =>
    let addr := a0 + 256 * a1 + 65536 * a2
    match store8 cstore8 st addr (st.machine.registers 0) with
    | (some err, _) => .error err
    | (none, st') =>
      .ok { st' with machine := { st'.machine with pc := st'.machine.pc + 4 } }
  | .jmp t0 t1 t2 =>
    .ok { st with machine := { st.machine with pc := t0 + 256 * t1 + 65536 * t2 } }
  | .halt code =>
    .ok { st with machine :=
      { st.machine with running := false, exit_code := code % 256 } }

/-- Modelled from the spec: the same executor semantics acting directly
on the bare machine state, as the decode-every-step interpreter (spec
§8 "caching disabled") uses it — identical effect on registers, memory,
pc, running flag and exit code, with no cache to maintain. -/
def cexec_plain (i : CInstr) (m : MachineState CMem) :
    Except Error (MachineState CMem) :=
  match i with
  | .nop => .ok { m with pc := m.pc + 4 }
  | .li rd imm => .ok { m with registers := upd m.registers rd imm, pc := m.pc + 4 }
  | .sb a0 a1 a2 =>
    let addr := a0 + 256 * a1 + 65536 * a2
    match cstore8 m.mem addr (m.registers 0) with
    | .error err => .error err
    | .ok mem' => .ok { m with mem := mem', pc := m.pc + 4 }
  | .jmp t0 t1 t2 => .ok { m with pc := t0 + 256 * t1 + 65536 * t2 }
  | .halt code => .ok { m with running := false, exit_code := code % 256 }

/-- Outcome of a fuel-bounded run of the plain interpreter. -/
inductive PlainOut where
  | halted (code : Nat) (m : MachineState CMem)
  | outOfFuel (m : MachineState CMem)

/-- Modelled from the spec: one step of the reference interpreter that
"decodes every instruction fresh on every step" (spec §8): decode at the
current pc against current memory, execute, and add the instruction's
cycle cost. -/
def plain_step (cycle_func : Option (CInstr → Nat)) (m : MachineState CMem) :
    Except Error (MachineState CMem) :=
  match cdecode m.mem m.pc with
  | .error err => .error err
  | .ok i =>
    match cexec_plain i m with
    | .error err => .error err
    | .ok m1 => add_cycles m1 (cycle_cost cycle_func i)

/-- Modelled from the spec: the fuel-bounded decode-every-step run loop,
mirroring the trace machine's outer loop without any cache. -/
def plain_run_go (cycle_func : Option (CInstr → Nat)) :
    Nat → MachineState CMem → Except Error PlainOut
  | fuel, m =>
    if m.running then
      match fuel with
      | 0 => .ok (.outOfFuel m)
      | n + 1 =>
        match plain_step cycle_func m with
        | .error err => .error err
        | .ok m' => plain_run_go cycle_func n m'
    else .ok (.halted m.exit_code m)

/-- Modelled from the spec: run the plain interpreter from a fresh
start (running flag set), bounded by `fuel`. -/
def plain_run (cycle_func : Option (CInstr → Nat)) (fuel : Nat)
    (m : MachineState CMem) : Except Error PlainOut :=
  plain_run_go cycle_func fuel { m with running := true }

-- Concrete self-modifying demonstration program.  Address 262136
-- (slot 8191) holds `sb 255 255 3` — store the low byte of register 0
-- (which is 0) at address 262143 — followed at 262140 by
-- `jmp 248 255 3` (target 262136), whose highest target byte lives at
-- address 262143.  The store rewrites that byte to 0, so a fresh decode
-- at 262140 jumps to 65528 instead, where a `halt` with exit code 7
-- sits (opcode byte 0 is the default memory content, so only the code
-- byte needs to be set).

/-- Demonstration memory image. -/
def demo_mem : CMem := fun a =>
  if a = 262136 then 2
  else if a = 262137 then 255
  else if a = 262138 then 255
  else if a = 262139 then 3
  else if a = 262140 then 3
  else if a = 262141 then 248
  else if a = 262142 then 255
  else if a = 262143 then 3
  else if a = 65529 then 7
  else 0

/-- Demonstration initial machine state: pc at the self-modifying
block, all registers 0, no cycle limit. -/
def demo_machine : MachineState CMem :=
  { pc := 262136
    registers := fun _ => 0
    mem := demo_mem
    cycles := 0
    running := false
    exit_code := 0
    max_cycles := none }

/-- Demonstration initial trace machine (as built by
`TraceMachine::new`: no traces, slot 0, flag down). -/
def demo_tm : TraceMachine CInstr CMem :=
  { machine := demo_machine
    traces := fun _ => default
    running_trace_slot := 0
    running_trace_cleared := false }

/-- The trace that the fill at pc 262136 produces on `demo_mem`: the
store followed by the original jump back to 262136, spanning
[262136, 262144). -/
def demo_trace : Trace CInstr :=
  { address := 262136
    length := 8
    instruction_count := 2
    instructions := [.sb 255 255 3, .jmp 248 255 3] }

/-- Cache state holding `demo_trace` in its slot 8191, as the fill
leaves it. -/
def demo_filled : TraceMachine CInstr CMem :=
  { machine := { demo_machine with running := true }
    traces := upd (fun _ => default) 8191 demo_trace
    running_trace_slot := 8191
    running_trace_cleared := false }

-- Observation helpers, so that concrete runs can be compared with
-- `decide` even though the states contain function-typed fields.

/-- Exit code of a trace-machine run, when it halted. -/
def trace_outcome : Except Error (RunOut CInstr CMem) → Option Nat
  | .ok (.halted code _) => some code
  | _ => none

/-- Program counter of a trace-machine run that ran out of fuel. -/
def trace_stuck_pc : Except Error (RunOut CInstr CMem) → Option Nat
  | .ok (.outOfFuel st) => some st.machine.pc
  | _ => none

/-- Exit code of a plain-interpreter run, when it halted. -/
def plain_outcome : Except Error PlainOut → Option Nat
  | .ok (.halted code _) => some code
  | _ => none

/-- Observation of one trace-machine step: program counter, cleared
flag, and the slot-8191 trace's address, byte length, instruction
count, plus the memory byte at 262143. -/
def step_obs : Except Error (TraceMachine CInstr CMem) →
    Option (Nat × Bool × Nat × Nat × Nat × Nat)
  | .ok st =>
    some (st.machine.pc, st.running_trace_cleared, (st.traces 8191).address,
      (st.traces 8191).length, (st.traces 8191).instruction_count,
      st.machine.mem 262143)
  | .error _ => none

/-- The demonstration trace machine as `run` initializes it (running
flag set, all `TRACE_SIZE` slots holding the default empty trace). -/
def s0 : TraceMachine CInstr CMem :=
  { machine :=
      { pc := 262136
        registers := fun _ => 0
        mem := demo_mem
        cycles := 0
        running := true
        exit_code := 0
        max_cycles := none }
    traces := fun _ => default
    running_trace_slot := 0
    running_trace_cleared := false }

/-- The demonstration trace machine after one outer iteration of the
run loop: slot 8191 was filled with `demo_trace`, the `sb` wrote byte 0
at address 262143 (inside the trace's own block), the cached `jmp` was
still executed (pc back to 262136), and the cleared flag was never
raised because the invalidation scan window was empty. -/
def s1 : TraceMachine CInstr CMem :=
  { machine :=
      { pc := 262136
        registers := fun _ => 0
        mem := upd demo_mem 262143 0
        cycles := 0
        running := true
        exit_code := 0
        max_cycles := none }
    traces := upd (upd (fun _ => default) 8191 default) 8191 demo_trace
    running_trace_slot := 8191
    running_trace_cleared := false }

/-- The demonstration machine right after the fill at pc 262136 (and
before any instruction of the block has executed): memory is still
`demo_mem`, slot 8191 holds `demo_trace`. -/
def s0_filled : TraceMachine CInstr CMem :=
  { s0 with traces := s1.traces }

/-- A trivial executor that leaves the state unchanged, used to
instantiate executor hypotheses on concrete inputs. -/
def id_exec : CInstr → TraceMachine CInstr CMem →
    Except Error (TraceMachine CInstr CMem) :=
  fun _ st => .ok st

/-- An executor that always faults, used to exercise the
error-propagation paths on concrete inputs. -/
def fail_exec : CInstr → TraceMachine CInstr CMem →
    Except Error (TraceMachine CInstr CMem) :=
  fun _ _ => .error .memFault

/-- `demo_filled` with an exhausted cycle budget, so that the very next
cycle accumulation faults. -/
def c7w_state : TraceMachine CInstr CMem :=
  { demo_filled with machine := { demo_filled.machine with max_cycles := some 0 } }

/-- The initialized demonstration machine pointed at address 262137,
where the byte 255 is not a valid opcode, so the fill's decode fails. -/
def bad_tm : TraceMachine CInstr CMem :=
  { s0 with machine := { s0.machine with pc := 262137 } }

/-- Inner memory operation with two scalar arguments that always
succeeds without changing memory, for exercising the wrappers. -/
def ok_inner3 : CMem → Nat → Nat → Except Error CMem := fun m _ _ => .ok m

/-- Inner memory operation with three scalar arguments that always
succeeds without changing memory. -/
def ok_inner4 : CMem → Nat → Nat → Nat → Except Error CMem := fun m _ _ _ => .ok m

/-- Inner memory operation taking a byte list that always succeeds
without changing memory. -/
def ok_innerbs : CMem → Nat → List Nat → Except Error CMem := fun m _ _ => .ok m

/-- Inner memory operation with two scalar arguments that always
faults. -/
def fail_inner3 : CMem → Nat → Nat → Except Error CMem := fun _ _ _ => .error .memFault

/-- Inner memory operation with three scalar arguments that always
faults. -/
def fail_inner4 : CMem → Nat → Nat → Nat → Except Error CMem :=
  fun _ _ _ _ => .error .memFault

/-- Inner memory operation taking a byte list that always faults. -/
def fail_innerbs : CMem → Nat → List Nat → Except Error CMem :=
  fun _ _ _ => .error .memFault

/-- `demo_tm` with its memory field re-installed, the shape in which a
successful wrapper hands the state to `clear_traces`. -/
def demo_tm_m : TraceMachine CInstr CMem :=
  { demo_tm with machine := { demo_tm.machine with mem := demo_mem } }

end CkbVm

namespace CkbVm

-- Theorems.  Helper lemmas come first; each claim has exactly one
-- theorem, named after the claim.

/-- Reading the cell just written. -/
theorem upd_same {α : Type} (f : Nat → α) (a : Nat) (v : α) : upd f a v a = v := by
  simp [upd]

/-- `add_cycles` on success adds exactly `n` to the cycle counter and
changes nothing else. -/
theorem add_cycles_ok {Mem : Type} (m : MachineState Mem) (n : Nat)
    (m' : MachineState Mem) (h : add_cycles m n = .ok m') :
    m' = { m with cycles := m.cycles + n } := by
  unfold add_cycles at h
  cases hmc : m.max_cycles with
  | none =>
    rw [hmc] at h
    dsimp only at h
    simp only [Except.ok.injEq] at h
    exact h.symm
  | some limit =>
    rw [hmc] at h
    dsimp only at h
    by_cases hlt : limit < m.cycles + n
    · rw [if_pos hlt] at h; cases h
    · rw [if_neg hlt] at h
      simp only [Except.ok.injEq] at h
      subst h
      simp [hmc]

/-- Sum of a pointwise-bounded map is bounded by the bound times the
length. -/
theorem sum_map_le_of_le {Instr : Type} (ilen : Instr → Nat) (bound : Nat)
    (hb : ∀ i, ilen i ≤ bound) :
    ∀ l : List Instr, (l.map ilen).sum ≤ bound * l.length := by
  intro l
  induction l with
  | nil => simp
  | cons a t ih =>
    simp only [List.map_cons, List.sum_cons, List.length_cons, Nat.mul_succ]
    have := hb a
    omega

/-- Structural specification of the fill loop: on success the appended
instructions number at most `fuel` (and at least one when `fuel` is
positive), the final cursor is the start plus the sum of the byte
lengths, and no instruction before the last one is classified as
basic-block-ending. -/
theorem fill_go_spec {Instr Mem : Type} (decode : Mem → Nat → Except Error Instr)
    (ilen : Instr → Nat) (iend : Instr → Bool) (mem : Mem) :
    ∀ fuel pc instrs final_pc,
      fill_go decode ilen iend mem fuel pc = .ok (instrs, final_pc) →
      instrs.length ≤ fuel
      ∧ final_pc = pc + (instrs.map ilen).sum
      ∧ (∀ i ∈ instrs.dropLast, iend i = false)
      ∧ (0 < fuel → 0 < instrs.length) := by
  intro fuel
  induction fuel with
  | zero =>
    intro pc instrs final_pc h
    simp only [fill_go, Except.ok.injEq, Prod.mk.injEq] at h
    obtain ⟨hi, hf⟩ := h
    subst hi
    subst hf
    simp
  | succ n ih =>
    intro pc instrs final_pc h
    simp only [fill_go] at h
    cases hdec : decode mem pc with
    | error err => rw [hdec] at h; cases h
    | ok instruction =>
      rw [hdec] at h
      by_cases hend : iend instruction = true
      · simp only [hend, if_true, Except.ok.injEq, Prod.mk.injEq] at h
        obtain ⟨hi, hf⟩ := h
        subst hi
        subst hf
        refine ⟨by simp, by simp, ?_, by simp⟩
        intro i hi'
        simp [List.dropLast_single] at hi'
      · have hend' : iend instruction = false := by
          simpa using hend
        simp only [hend', if_false, Bool.false_eq_true] at h
        cases hrec : fill_go decode ilen iend mem n (pc + ilen instruction) with
        | error err => rw [hrec] at h; cases h
        | ok p =>
          obtain ⟨rest, fin⟩ := p
          rw [hrec] at h
          simp only [Except.ok.injEq, Prod.mk.injEq] at h
          obtain ⟨hi, hf⟩ := h
          subst hi
          subst hf
          obtain ⟨ih1, ih2, ih3, ih4⟩ := ih (pc + ilen instruction) rest fin hrec
          refine ⟨by simpa using Nat.succ_le_succ ih1, ?_, ?_, by simp⟩
          · rw [ih2]
            simp only [List.map_cons, List.sum_cons]
            omega
          · intro i hi'
            cases rest with
            | nil => simp [List.dropLast_single] at hi'
            | cons r rs =>
              rw [List.dropLast_cons₂] at hi'
              rcases List.mem_cons.mp hi' with hcase | hcase
              · rw [hcase]; exact hend'
              · exact ih3 i hcase

/-- Updating the same cell twice keeps only the second write. -/
theorem upd_upd_same {α : Type} (f : Nat → α) (a : Nat) (v w : α) :
    upd (upd f a v) a w = upd f a w := by
  funext x
  unfold upd
  by_cases h : x = a <;> simp [h]

/-- The demonstration memory after re-writing byte 262143 with the same
value is unchanged. -/
theorem demo_mem_rewrite :
    upd (upd demo_mem 262143 0) 262143 (0 % 256) = upd demo_mem 262143 0 := by
  have h : (0 : Nat) % 256 = 0 := rfl
  rw [h, upd_upd_same]

/-- Unfolding `run_go` at fuel zero. -/
theorem run_go_zero {Instr Mem : Type} [Inhabited Instr]
    (decode : Mem → Nat → Except Error Instr) (ilen : Instr → Nat)
    (iend : Instr → Bool)
    (ex : Instr → TraceMachine Instr Mem → Except Error (TraceMachine Instr Mem))
    (cf : Option (Instr → Nat)) (st : TraceMachine Instr Mem) :
    run_go decode ilen iend ex cf 0 st =
      if st.machine.running then .ok (.outOfFuel st)
      else .ok (.halted st.machine.exit_code st) := rfl

/-- Unfolding `run_go` at successor fuel. -/
theorem run_go_succ {Instr Mem : Type} [Inhabited Instr]
    (decode : Mem → Nat → Except Error Instr) (ilen : Instr → Nat)
    (iend : Instr → Bool)
    (ex : Instr → TraceMachine Instr Mem → Except Error (TraceMachine Instr Mem))
    (cf : Option (Instr → Nat)) (n : Nat) (st : TraceMachine Instr Mem) :
    run_go decode ilen iend ex cf (n + 1) st =
      if st.machine.running then
        match step decode ilen iend ex cf st with
        | .error err => .error err
        | .ok st' => run_go decode ilen iend ex cf n st'
      else .ok (.halted st.machine.exit_code st) := rfl

/-- A state on which `step` is a fixpoint and whose running flag stays
set makes the run loop spin forever: every fuel ends in `outOfFuel`. -/
theorem run_go_fix {Instr Mem : Type} [Inhabited Instr]
    (decode : Mem → Nat → Except Error Instr) (ilen : Instr → Nat)
    (iend : Instr → Bool)
    (ex : Instr → TraceMachine Instr Mem → Except Error (TraceMachine Instr Mem))
    (cf : Option (Instr → Nat)) (st : TraceMachine Instr Mem)
    (hrun : st.machine.running = true)
    (hstep : step decode ilen iend ex cf st = .ok st) :
    ∀ n, run_go decode ilen iend ex cf n st = .ok (.outOfFuel st) := by
  intro n
  induction n with
  | zero => rw [run_go_zero, hrun]; rfl
  | succ n ih => rw [run_go_succ, hrun, hstep]; simpa using ih

/-- One outer iteration takes the initialized demonstration machine to
`s1`: the block at 262136 is filled and both its instructions run, the
in-block write at 262143 notwithstanding. -/
theorem step_s0 : step cdecode clen cend cexec none s0 = .ok s1 := by rfl

/-- `s1` is a fixpoint of the outer iteration: the fetch at pc 262136
is a stale cache hit (slot 8191 still holds `demo_trace` even though
the memory byte 262143 underneath it changed), the cached store rewrites
the same byte, the scan window is again empty, and the cached jump
returns the pc to 262136. -/
theorem step_s1 : step cdecode clen cend cexec none s1 = .ok s1 := by
  have h : step cdecode clen cend cexec none s1 =
      .ok { s1 with machine :=
        { s1.machine with mem := upd (upd demo_mem 262143 0) 262143 (0 % 256) } } := by
    rfl
  rw [h, demo_mem_rewrite]
  rfl

/-- C4: confirmed.  Every trace produced by a successful fill (the miss
path of the lookup) holds between 1 and `TRACE_ITEM_LENGTH` (16)
instructions, its `instruction_count` is the number of stored
instructions, no instruction other than the last one is classified as
basic-block-ending, and its byte `length` equals the sum of the byte
lengths of the stored instructions. -/
theorem c4_fill_invariants {Instr Mem : Type} [Inhabited Instr]
    (decode : Mem → Nat → Except Error Instr) (ilen : Instr → Nat)
    (iend : Instr → Bool) (st : TraceMachine Instr Mem) (pc : Nat)
    (st' : TraceMachine Instr Mem) (slot : Nat)
    (hmiss : pc ≠ (st.traces (calculate_slot pc)).address
      ∨ (st.traces (calculate_slot pc)).instruction_count = 0)
    (h : fetch_trace decode ilen iend st pc = .ok (st', slot)) :
    1 ≤ (st'.traces slot).instruction_count
    ∧ (st'.traces slot).instruction_count ≤ TRACE_ITEM_LENGTH
    ∧ (st'.traces slot).instruction_count = (st'.traces slot).instructions.length
    ∧ (∀ i ∈ (st'.traces slot).instructions.dropLast, iend i = false)
    ∧ (st'.traces slot).length = ((st'.traces slot).instructions.map ilen).sum := by
  unfold fetch_trace at h
  rw [if_pos hmiss] at h
  cases hf : fill_go decode ilen iend st.machine.mem TRACE_ITEM_LENGTH pc with
  | error err => rw [hf] at h; cases h
  | ok p =>
    obtain ⟨instrs, final_pc⟩ := p
    rw [hf] at h
    dsimp only at h
    simp only [Except.ok.injEq, Prod.mk.injEq] at h
    obtain ⟨hst, hslot⟩ := h
    subst hst
    subst hslot
    obtain ⟨h1, h2, h3, h4⟩ :=
      fill_go_spec decode ilen iend st.machine.mem TRACE_ITEM_LENGTH pc instrs final_pc hf
    dsimp only
    rw [upd_upd_same, upd_same]
    refine ⟨h4 (by decide), h1, rfl, h3, ?_⟩
    rw [h2, Nat.add_sub_cancel_left]

/-- Witness for C4 at the demonstration fill: the trace filled at pc
262136 against `demo_mem` satisfies all the invariants. -/
theorem c4_witness :
    1 ≤ (s0_filled.traces 8191).instruction_count
    ∧ (s0_filled.traces 8191).instruction_count ≤ TRACE_ITEM_LENGTH
    ∧ (s0_filled.traces 8191).instruction_count
        = (s0_filled.traces 8191).instructions.length
    ∧ (∀ i ∈ (s0_filled.traces 8191).instructions.dropLast, cend i = false)
    ∧ (s0_filled.traces 8191).length
        = ((s0_filled.traces 8191).instructions.map clen).sum :=
  c4_fill_invariants cdecode clen cend s0 262136 s0_filled 8191
    (by decide) (by rfl)

/-- C9: confirmed (against the spec-modelled bound on instruction
widths, which are external to src/): when every instruction is at most
4 bytes wide, a successful fill spans at most
`TRACE_ITEM_MAXIMAL_ADDRESS_LENGTH` bytes, and that constant is derived
as capacity times worst-case width, `4 * TRACE_ITEM_LENGTH = 64`. -/
theorem c9_max_block_span {Instr Mem : Type}
    (decode : Mem → Nat → Except Error Instr) (ilen : Instr → Nat)
    (iend : Instr → Bool) (mem : Mem) (pc : Nat) (instrs : List Instr)
    (final_pc : Nat) (hw : ∀ i : Instr, ilen i ≤ 4)
    (h : fill_go decode ilen iend mem TRACE_ITEM_LENGTH pc = .ok (instrs, final_pc)) :
    final_pc - pc ≤ TRACE_ITEM_MAXIMAL_ADDRESS_LENGTH
    ∧ TRACE_ITEM_MAXIMAL_ADDRESS_LENGTH = 4 * TRACE_ITEM_LENGTH := by
  obtain ⟨h1, h2, -, -⟩ :=
    fill_go_spec decode ilen iend mem TRACE_ITEM_LENGTH pc instrs final_pc h
  refine ⟨?_, rfl⟩
  rw [h2, Nat.add_sub_cancel_left]
  calc (instrs.map ilen).sum ≤ 4 * instrs.length := sum_map_le_of_le ilen 4 hw instrs
    _ ≤ 4 * TRACE_ITEM_LENGTH := Nat.mul_le_mul_left 4 h1
    _ = TRACE_ITEM_MAXIMAL_ADDRESS_LENGTH := rfl

/-- Witness for C9 at the demonstration fill: the block filled at
262136 ends at 262144, within the 64-byte bound. -/
theorem c9_witness :
    262144 - 262136 ≤ TRACE_ITEM_MAXIMAL_ADDRESS_LENGTH
    ∧ TRACE_ITEM_MAXIMAL_ADDRESS_LENGTH = 4 * TRACE_ITEM_LENGTH :=
  c9_max_block_span cdecode clen cend demo_mem 262136
    [.sb 255 255 3, .jmp 248 255 3] 262144 (fun _ => Nat.le_refl 4) (by rfl)

/-- C3: confirmed.  A fetch at `pc` is a hit — the state is returned
unchanged with the slot of `pc`, independently of the decoder (no
decoding performed) — exactly when the slot's trace is non-empty and its
`address` equals `pc`.  In every other case the slot is overwritten with
the empty trace and refilled by decoding from `pc` against current
memory (stated as the single-update form, the overwrite being absorbed
by the refill); the outcome is then independent of whatever trace
previously occupied the slot, and on success the slot holds a non-empty
trace whose `address` is `pc`. -/
theorem c3_lookup_or_fill {Instr Mem : Type} [Inhabited Instr]
    (decode : Mem → Nat → Except Error Instr) (ilen : Instr → Nat)
    (iend : Instr → Bool) (st : TraceMachine Instr Mem) (pc : Nat) :
    ((st.traces (calculate_slot pc)).instruction_count ≠ 0
      ∧ (st.traces (calculate_slot pc)).address = pc →
      ∀ (decode' : Mem → Nat → Except Error Instr) (ilen' : Instr → Nat)
        (iend' : Instr → Bool),
        fetch_trace decode' ilen' iend' st pc = .ok (st, calculate_slot pc))
    ∧ ((st.traces (calculate_slot pc)).instruction_count = 0
        ∨ (st.traces (calculate_slot pc)).address ≠ pc →
      fetch_trace decode ilen iend st pc =
        (match fill_go decode ilen iend st.machine.mem TRACE_ITEM_LENGTH pc with
         | .error err => .error err
         | .ok (instrs, final_pc) =>
           .ok ({ st with
                    traces := upd st.traces (calculate_slot pc)
                        ⟨pc, final_pc - pc, instrs.length, instrs⟩ },
                calculate_slot pc))
      ∧ (∀ t' : Trace Instr, t'.instruction_count = 0 ∨ t'.address ≠ pc →
          fetch_trace decode ilen iend
            { st with traces := upd st.traces (calculate_slot pc) t' } pc =
            fetch_trace decode ilen iend st pc)
      ∧ (∀ (st' : TraceMachine Instr Mem) (slot' : Nat),
          fetch_trace decode ilen iend st pc = .ok (st', slot') →
          (st'.traces slot').address = pc
          ∧ (st'.traces slot').instruction_count ≠ 0)) := by
  constructor
  · rintro ⟨hc, ha⟩ decode' ilen' iend'
    unfold fetch_trace
    rw [if_neg]
    push_neg
    exact ⟨ha.symm, hc⟩
  · intro hmiss
    have hmiss' : pc ≠ (st.traces (calculate_slot pc)).address
        ∨ (st.traces (calculate_slot pc)).instruction_count = 0 := by tauto
    refine ⟨?_, ?_, ?_⟩
    · unfold fetch_trace
      rw [if_pos hmiss']
      cases hf : fill_go decode ilen iend st.machine.mem TRACE_ITEM_LENGTH pc with
      | error err => rfl
      | ok p =>
        obtain ⟨instrs, final_pc⟩ := p
        dsimp only
        rw [upd_upd_same]
    · intro t' ht'
      have hmiss2 :
          pc ≠ (({ st with traces := upd st.traces (calculate_slot pc) t' }
              : TraceMachine Instr Mem).traces (calculate_slot pc)).address
          ∨ (({ st with traces := upd st.traces (calculate_slot pc) t' }
              : TraceMachine Instr Mem).traces
                (calculate_slot pc)).instruction_count = 0 := by
        dsimp only
        rw [upd_same]
        tauto
      unfold fetch_trace
      rw [if_pos hmiss2, if_pos hmiss']
      dsimp only
      cases hf : fill_go decode ilen iend st.machine.mem TRACE_ITEM_LENGTH pc with
      | error err => rfl
      | ok p =>
        obtain ⟨instrs, final_pc⟩ := p
        dsimp only
        simp only [upd_upd_same]
    · intro st' slot' h
      unfold fetch_trace at h
      rw [if_pos hmiss'] at h
      cases hf : fill_go decode ilen iend st.machine.mem TRACE_ITEM_LENGTH pc with
      | error err => rw [hf] at h; cases h
      | ok p =>
        obtain ⟨instrs, final_pc⟩ := p
        rw [hf] at h
        dsimp only at h
        simp only [Except.ok.injEq, Prod.mk.injEq] at h
        obtain ⟨hst, hslot⟩ := h
        subst hst
        subst hslot
        dsimp only
        rw [upd_upd_same, upd_same]
        obtain ⟨-, -, -, h4⟩ :=
          fill_go_spec decode ilen iend st.machine.mem TRACE_ITEM_LENGTH pc
            instrs final_pc hf
        have hpos := h4 (by decide)
        exact ⟨rfl, by simpa using Nat.pos_iff_ne_zero.mp hpos⟩

/-- Witness for C3: the fetch at 262136 on `s1` is a hit returned
unchanged, and the successful fill from `s0` stores a non-empty trace
with address 262136. -/
theorem c3_witness :
    fetch_trace cdecode clen cend s1 262136 = .ok (s1, 8191)
    ∧ (s0_filled.traces 8191).address = 262136
    ∧ (s0_filled.traces 8191).instruction_count ≠ 0 := by
  refine ⟨?_, ?_, ?_⟩
  · exact (c3_lookup_or_fill cdecode clen cend s1 262136).1
      ⟨by decide, by decide⟩ cdecode clen cend
  · exact (((c3_lookup_or_fill cdecode clen cend s0 262136).2
      (by decide)).2.2 s0_filled 8191 (by rfl)).1
  · exact (((c3_lookup_or_fill cdecode clen cend s0 262136).2
      (by decide)).2.2 s0_filled 8191 (by rfl)).2

/-- C6: confirmed.  Every successful mutating memory operation routed
through the trace machine invokes the invalidation engine synchronously,
before returning, over exactly the byte range the operation touched:
`mmap`/`munmap` and `store_byte` over `[addr, addr+size)`, `store_bytes`
over `[addr, addr + value.length)`, and `store8/16/32/64` over 1, 2, 4
and 8 bytes from `addr`. -/
theorem c6_invalidate_exact_range {Instr Mem : Type}
    (st : TraceMachine Instr Mem) (addr size value : Nat) (bytes : List Nat)
    (im iu i8 i16 i32 i64 : Mem → Nat → Nat → Except Error Mem)
    (ib : Mem → Nat → Nat → Nat → Except Error Mem)
    (ibs : Mem → Nat → List Nat → Except Error Mem) (mem' : Mem) :
    (im st.machine.mem addr size = .ok mem' →
      mmap im st addr size =
        (none, clear_traces
          { st with machine := { st.machine with mem := mem' } } addr size))
    ∧ (iu st.machine.mem addr size = .ok mem' →
      munmap iu st addr size =
        (none, clear_traces
          { st with machine := { st.machine with mem := mem' } } addr size))
    ∧ (ib st.machine.mem addr size value = .ok mem' →
      store_byte ib st addr size value =
        (none, clear_traces
          { st with machine := { st.machine with mem := mem' } } addr size))
    ∧ (ibs st.machine.mem addr bytes = .ok mem' →
      store_bytes ibs st addr bytes =
        (none, clear_traces
          { st with machine := { st.machine with mem := mem' } } addr bytes.length))
    ∧ (i8 st.machine.mem addr value = .ok mem' →
      store8 i8 st addr value =
        (none, clear_traces
          { st with machine := { st.machine with mem := mem' } } addr 1))
    ∧ (i16 st.machine.mem addr value = .ok mem' →
      store16 i16 st addr value =
        (none, clear_traces
          { st with machine := { st.machine with mem := mem' } } addr 2))
    ∧ (i32 st.machine.mem addr value = .ok mem' →
      store32 i32 st addr value =
        (none, clear_traces
          { st with machine := { st.machine with mem := mem' } } addr 4))
    ∧ (i64 st.machine.mem addr value = .ok mem' →
      store64 i64 st addr value =
        (none, clear_traces
          { st with machine := { st.machine with mem := mem' } } addr 8)) := by
  refine ⟨?_, ?_, ?_, ?_, ?_, ?_, ?_, ?_⟩
  · intro h; simp only [mmap, mutate_with_clear, h]
  · intro h; simp only [munmap, mutate_with_clear, h]
  · intro h; simp only [store_byte, mutate_with_clear, h]
  · intro h; simp only [store_bytes, mutate_with_clear, h]
  · intro h; simp only [store8, mutate_with_clear, h]
  · intro h; simp only [store16, mutate_with_clear, h]
  · intro h; simp only [store32, mutate_with_clear, h]
  · intro h; simp only [store64, mutate_with_clear, h]

/-- Witness for C6: all eight wrappers, instantiated with inner
operations that succeed leaving memory unchanged, hand the state to the
invalidation engine with their exact ranges. -/
theorem c6_witness :
    mmap ok_inner3 demo_tm 5 3 = (none, clear_traces demo_tm_m 5 3)
    ∧ munmap ok_inner3 demo_tm 5 3 = (none, clear_traces demo_tm_m 5 3)
    ∧ store_byte ok_inner4 demo_tm 5 3 9 = (none, clear_traces demo_tm_m 5 3)
    ∧ store_bytes ok_innerbs demo_tm 5 [1, 2] =
        (none, clear_traces demo_tm_m 5 (([1, 2] : List Nat)).length)
    ∧ store8 ok_inner3 demo_tm 5 9 = (none, clear_traces demo_tm_m 5 1)
    ∧ store16 ok_inner3 demo_tm 5 9 = (none, clear_traces demo_tm_m 5 2)
    ∧ store32 ok_inner3 demo_tm 5 9 = (none, clear_traces demo_tm_m 5 4)
    ∧ store64 ok_inner3 demo_tm 5 9 = (none, clear_traces demo_tm_m 5 8) := by
  obtain ⟨h1, h2, h3, h4, h5, h6, h7, h8⟩ :=
    c6_invalidate_exact_range demo_tm 5 3 9 [1, 2] ok_inner3 ok_inner3 ok_inner3
      ok_inner3 ok_inner3 ok_inner3 ok_inner4 ok_innerbs demo_mem
  exact ⟨h1 rfl, h2 rfl, h3 rfl, h4 rfl, h5 rfl, h6 rfl, h7 rfl, h8 rfl⟩

/-- C10: confirmed.  When the underlying memory subsystem rejects a
mutating operation, the wrapper surfaces the error and the trace machine
is returned unchanged — in particular no trace slot is cleared and the
`running_trace_cleared` flag is not raised. -/
theorem c10_failed_mutation {Instr Mem : Type}
    (st : TraceMachine Instr Mem) (addr size value : Nat) (bytes : List Nat)
    (im iu i8 i16 i32 i64 : Mem → Nat → Nat → Except Error Mem)
    (ib : Mem → Nat → Nat → Nat → Except Error Mem)
    (ibs : Mem → Nat → List Nat → Except Error Mem) (err : Error) :
    (im st.machine.mem addr size = .error err →
      mmap im st addr size = (some err, st))
    ∧ (iu st.machine.mem addr size = .error err →
      munmap iu st addr size = (some err, st))
    ∧ (ib st.machine.mem addr size value = .error err →
      store_byte ib st addr size value = (some err, st))
    ∧ (ibs st.machine.mem addr bytes = .error err →
      store_bytes ibs st addr bytes = (some err, st))
    ∧ (i8 st.machine.mem addr value = .error err →
      store8 i8 st addr value = (some err, st))
    ∧ (i16 st.machine.mem addr value = .error err →
      store16 i16 st addr value = (some err, st))
    ∧ (i32 st.machine.mem addr value = .error err →
      store32 i32 st addr value = (some err, st))
    ∧ (i64 st.machine.mem addr value = .error err →
      store64 i64 st addr value = (some err, st)) := by
  refine ⟨?_, ?_, ?_, ?_, ?_, ?_, ?_, ?_⟩
  · intro h; simp only [mmap, mutate_with_clear, h]
  · intro h; simp only [munmap, mutate_with_clear, h]
  · intro h; simp only [store_byte, mutate_with_clear, h]
  · intro h; simp only [store_bytes, mutate_with_clear, h]
  · intro h; simp only [store8, mutate_with_clear, h]
  · intro h; simp only [store16, mutate_with_clear, h]
  · intro h; simp only [store32, mutate_with_clear, h]
  · intro h; simp only [store64, mutate_with_clear, h]

/-- Witness for C10: all eight wrappers, instantiated with inner
operations that fault, surface the fault and leave the trace machine
untouched. -/
theorem c10_witness :
    mmap fail_inner3 demo_tm 5 3 = (some Error.memFault, demo_tm)
    ∧ munmap fail_inner3 demo_tm 5 3 = (some Error.memFault, demo_tm)
    ∧ store_byte fail_inner4 demo_tm 5 3 9 = (some Error.memFault, demo_tm)
    ∧ store_bytes fail_innerbs demo_tm 5 [1, 2] = (some Error.memFault, demo_tm)
    ∧ store8 fail_inner3 demo_tm 5 9 = (some Error.memFault, demo_tm)
    ∧ store16 fail_inner3 demo_tm 5 9 = (some Error.memFault, demo_tm)
    ∧ store32 fail_inner3 demo_tm 5 9 = (some Error.memFault, demo_tm)
    ∧ store64 fail_inner3 demo_tm 5 9 = (some Error.memFault, demo_tm) := by
  obtain ⟨h1, h2, h3, h4, h5, h6, h7, h8⟩ :=
    c10_failed_mutation demo_tm 5 3 9 [1, 2] fail_inner3 fail_inner3 fail_inner3
      fail_inner3 fail_inner3 fail_inner3 fail_inner4 fail_innerbs Error.memFault
  exact ⟨h1 rfl, h2 rfl, h3 rfl, h4 rfl, h5 rfl, h6 rfl, h7 rfl, h8 rfl⟩

/-- Cycle accounting through the inner instruction loop: under the
interface contract of the external executor (it never touches the
running-slot bookkeeping nor the cycle counter, and the running slot's
trace can only change together with the cleared flag, which is how
`clear_traces` behaves), a successful pass adds exactly the sum of the
cycle costs of the instructions it executed — a prefix of the index
list. -/
theorem exec_loop_cycles_aux {Instr Mem : Type} [Inhabited Instr]
    (ex : Instr → TraceMachine Instr Mem → Except Error (TraceMachine Instr Mem))
    (cf : Option (Instr → Nat)) (slot : Nat) (T : Trace Instr)
    (H1 : ∀ (i : Instr) s s', ex i s = .ok s' →
      s'.running_trace_slot = s.running_trace_slot)
    (H2 : ∀ (i : Instr) s s', ex i s = .ok s' → s'.running_trace_cleared = false →
      s'.traces s'.running_trace_slot = s.traces s.running_trace_slot)
    (H3 : ∀ (i : Instr) s s', ex i s = .ok s' →
      s'.machine.cycles = s.machine.cycles) :
    ∀ (idxs : List Nat) (st st' : TraceMachine Instr Mem),
      st.running_trace_slot = slot → st.traces slot = T →
      exec_loop ex cf slot idxs st = .ok st' →
      ∃ j, j ≤ idxs.length ∧
        st'.machine.cycles = st.machine.cycles +
          ((idxs.take j).map
            (fun a => cycle_cost cf (T.instructions.getD a default))).sum := by
  intro idxs
  induction idxs with
  | nil =>
    intro st st' _ _ h
    simp only [exec_loop, Except.ok.injEq] at h
    subst h
    exact ⟨0, by simp, by simp⟩
  | cons a rest ih =>
    intro st st' hslot htr h
    simp only [exec_loop] at h
    rw [htr] at h
    cases hex : ex (T.instructions.getD a default) st with
    | error err => rw [hex] at h; cases h
    | ok st1 =>
      rw [hex] at h
      dsimp only at h
      cases hac : add_cycles st1.machine
          (cycle_cost cf (T.instructions.getD a default)) with
      | error err => rw [hac] at h; cases h
      | ok m2 =>
        rw [hac] at h
        dsimp only at h
        have hm2 := add_cycles_ok st1.machine _ m2 hac
        have hcyc1 : st1.machine.cycles = st.machine.cycles := H3 _ _ _ hex
        have hm2c : m2.cycles =
            st.machine.cycles + cycle_cost cf (T.instructions.getD a default) := by
          rw [hm2]
          dsimp only
          rw [hcyc1]
        cases hcl : st1.running_trace_cleared with
        | true =>
          rw [hcl] at h
          rw [if_pos rfl] at h
          simp only [Except.ok.injEq] at h
          subst h
          refine ⟨1, by simp, ?_⟩
          simpa using hm2c
        | false =>
          rw [hcl] at h
          rw [if_neg Bool.false_ne_true] at h
          have hslot1 : st1.running_trace_slot = slot := by
            rw [H1 _ _ _ hex, hslot]
          have htr1 : st1.traces slot = T := by
            have := H2 _ _ _ hex hcl
            rw [hslot1, hslot] at this
            rw [this, htr]
          obtain ⟨j, hj, hsum⟩ :=
            ih ⟨m2, st1.traces, st1.running_trace_slot, false⟩ st' hslot1 htr1 h
          refine ⟨j + 1, by simpa using Nat.succ_le_succ hj, ?_⟩
          rw [List.take_succ_cons, List.map_cons, List.sum_cons]
          have hst2c : ((⟨m2, st1.traces, st1.running_trace_slot, false⟩
              : TraceMachine Instr Mem)).machine.cycles = m2.cycles := rfl
          rw [hst2c, hm2c] at hsum
          omega

/-- C7: confirmed.  The fetch (hit or fill) never changes the cycle
counter; the per-instruction cycle cost is the configured cost function,
and 0 when none is configured; for a successful pass over a trace the
cycle counter advances by exactly the sum of the executed instructions'
costs (so for the same executed sequence the total is independent of
hits versus misses); and a cycle-accumulation failure aborts the inner
loop with the fault.  The executor hypotheses are the interface contract
of the external instruction executor (spec §6). -/
theorem c7_cycle_metering {Instr Mem : Type} [Inhabited Instr]
    (decode : Mem → Nat → Except Error Instr) (ilen : Instr → Nat)
    (iend : Instr → Bool)
    (ex : Instr → TraceMachine Instr Mem → Except Error (TraceMachine Instr Mem))
    (cf : Option (Instr → Nat))
    (H1 : ∀ (i : Instr) s s', ex i s = .ok s' →
      s'.running_trace_slot = s.running_trace_slot)
    (H2 : ∀ (i : Instr) s s', ex i s = .ok s' → s'.running_trace_cleared = false →
      s'.traces s'.running_trace_slot = s.traces s.running_trace_slot)
    (H3 : ∀ (i : Instr) s s', ex i s = .ok s' →
      s'.machine.cycles = s.machine.cycles) :
    (∀ (st : TraceMachine Instr Mem) (pc : Nat) (st' : TraceMachine Instr Mem)
      (slot : Nat), fetch_trace decode ilen iend st pc = .ok (st', slot) →
      st'.machine.cycles = st.machine.cycles)
    ∧ (∀ i : Instr, cycle_cost (none : Option (Instr → Nat)) i = 0)
    ∧ (∀ (idxs : List Nat) (st st' : TraceMachine Instr Mem),
        exec_loop ex cf st.running_trace_slot idxs st = .ok st' →
        ∃ j, j ≤ idxs.length ∧
          st'.machine.cycles = st.machine.cycles +
            ((idxs.take j).map (fun a => cycle_cost cf
              ((st.traces st.running_trace_slot).instructions.getD a
                default))).sum)
    ∧ (∀ (idx : Nat) (rest : List Nat) (st st1 : TraceMachine Instr Mem)
        (err : Error),
        ex ((st.traces st.running_trace_slot).instructions.getD idx default) st
          = .ok st1 →
        add_cycles st1.machine (cycle_cost cf
          ((st.traces st.running_trace_slot).instructions.getD idx default))
          = .error err →
        exec_loop ex cf st.running_trace_slot (idx :: rest) st = .error err) := by
  refine ⟨?_, ?_, ?_, ?_⟩
  · intro st pc st' slot h
    unfold fetch_trace at h
    by_cases hc : pc ≠ (st.traces (calculate_slot pc)).address
        ∨ (st.traces (calculate_slot pc)).instruction_count = 0
    · rw [if_pos hc] at h
      cases hf : fill_go decode ilen iend st.machine.mem TRACE_ITEM_LENGTH pc with
      | error err => rw [hf] at h; cases h
      | ok p =>
        obtain ⟨instrs, final_pc⟩ := p
        rw [hf] at h
        dsimp only at h
        simp only [Except.ok.injEq, Prod.mk.injEq] at h
        obtain ⟨hst, -⟩ := h
        subst hst
        rfl
    · rw [if_neg hc] at h
      simp only [Except.ok.injEq, Prod.mk.injEq] at h
      obtain ⟨hst, -⟩ := h
      subst hst
      rfl
  · intro i
    rfl
  · intro idxs st st' h
    exact exec_loop_cycles_aux ex cf st.running_trace_slot
      (st.traces st.running_trace_slot) H1 H2 H3 idxs st st' rfl rfl h
  · intro idx rest st st1 err hex hac
    simp only [exec_loop]
    rw [hex]
    dsimp only
    rw [hac]

/-- Witness for C7 with the identity executor, the constant cost
function 1, a hit fetch on `s1`, an empty pass on `demo_tm`, and an
exhausted cycle budget on `c7w_state`. -/
theorem c7_witness :
    s1.machine.cycles = s1.machine.cycles
    ∧ cycle_cost (none : Option (CInstr → Nat)) CInstr.nop = 0
    ∧ (∃ j, j ≤ ([] : List Nat).length ∧
        demo_tm.machine.cycles = demo_tm.machine.cycles +
          ((([] : List Nat).take j).map (fun a =>
            cycle_cost (some fun _ => 1)
              ((demo_tm.traces demo_tm.running_trace_slot).instructions.getD a
                default))).sum)
    ∧ exec_loop id_exec (some fun _ => 1) c7w_state.running_trace_slot
        (0 :: []) c7w_state = .error .cycleLimitExceeded := by
  obtain ⟨h1, h2, h3, h4⟩ :=
    c7_cycle_metering cdecode clen cend id_exec (some fun _ => 1)
      (by intro i s s' h
          simp only [id_exec, Except.ok.injEq] at h
          rw [← h])
      (by intro i s s' h _
          simp only [id_exec, Except.ok.injEq] at h
          rw [← h])
      (by intro i s s' h
          simp only [id_exec, Except.ok.injEq] at h
          rw [← h])
  exact ⟨h1 s1 262136 s1 8191 rfl, h2 CInstr.nop, h3 [] demo_tm demo_tm rfl,
    h4 0 [] c7w_state c7w_state Error.cycleLimitExceeded rfl rfl⟩

/-- C8: confirmed.  A stopped machine makes `run` return the machine's
exit code; with the machine running, a fetch (fill) error or an error
from the inner instruction loop (execute or cycle accumulation, by C7's
last conjunct) immediately aborts the loop and surfaces unchanged — in
particular a fill failure is never retried and never treated as an
uncached fallback step; and a successful `halted` outcome implies the
running flag is false and the code returned is the machine's exit
code. -/
theorem c8_error_propagation {Instr Mem : Type} [Inhabited Instr]
    (decode : Mem → Nat → Except Error Instr) (ilen : Instr → Nat)
    (iend : Instr → Bool)
    (ex : Instr → TraceMachine Instr Mem → Except Error (TraceMachine Instr Mem))
    (cf : Option (Instr → Nat)) :
    (∀ (fuel : Nat) (st : TraceMachine Instr Mem), st.machine.running = false →
      run_go decode ilen iend ex cf fuel st =
        .ok (.halted st.machine.exit_code st))
    ∧ (∀ (n : Nat) (st : TraceMachine Instr Mem) (err : Error),
        st.machine.running = true →
        fetch_trace decode ilen iend st st.machine.pc = .error err →
        run_go decode ilen iend ex cf (n + 1) st = .error err)
    ∧ (∀ (n : Nat) (st st1 : TraceMachine Instr Mem) (slot : Nat) (err : Error),
        st.machine.running = true →
        fetch_trace decode ilen iend st st.machine.pc = .ok (st1, slot) →
        exec_loop ex cf slot
          (List.range (((⟨st1.machine, st1.traces, slot, false⟩
              : TraceMachine Instr Mem)).traces slot).instruction_count)
          ⟨st1.machine, st1.traces, slot, false⟩ = .error err →
        run_go decode ilen iend ex cf (n + 1) st = .error err)
    ∧ (∀ (fuel : Nat) (st : TraceMachine Instr Mem) (code : Nat)
        (st' : TraceMachine Instr Mem),
        run_go decode ilen iend ex cf fuel st = .ok (.halted code st') →
        st'.machine.running = false ∧ code = st'.machine.exit_code) := by
  refine ⟨?_, ?_, ?_, ?_⟩
  · intro fuel st h
    cases fuel with
    | zero => rw [run_go_zero, h, if_neg Bool.false_ne_true]
    | succ n => rw [run_go_succ, h, if_neg Bool.false_ne_true]
  · intro n st err hrun hf
    have hstep : step decode ilen iend ex cf st = .error err := by
      simp only [step]
      rw [hf]
    rw [run_go_succ, hrun, if_pos rfl, hstep]
  · intro n st st1 slot err hrun hf hexec
    have hstep : step decode ilen iend ex cf st = .error err := by
      simp only [step]
      rw [hf]
      dsimp only
      exact hexec
    rw [run_go_succ, hrun, if_pos rfl, hstep]
  · intro fuel
    induction fuel with
    | zero =>
      intro st code st' h
      rw [run_go_zero] at h
      cases hr : st.machine.running with
      | true =>
        rw [hr, if_pos rfl] at h
        simp at h
      | false =>
        rw [hr, if_neg Bool.false_ne_true] at h
        simp only [Except.ok.injEq] at h
        injection h with h1 h2
        subst h2
        exact ⟨hr, h1.symm⟩
    | succ n ihn =>
      intro st code st' h
      rw [run_go_succ] at h
      cases hr : st.machine.running with
      | false =>
        rw [hr, if_neg Bool.false_ne_true] at h
        simp only [Except.ok.injEq] at h
        injection h with h1 h2
        subst h2
        exact ⟨hr, h1.symm⟩
      | true =>
        rw [hr, if_pos rfl] at h
        cases hs : step decode ilen iend ex cf st with
        | error err => rw [hs] at h; cases h
        | ok st'' =>
          rw [hs] at h
          dsimp only at h
          exact ihn st'' code st' h

/-- Witness for C8: a stopped machine halts with its exit code; the
decode failure at 262137 surfaces from a one-step run; a faulting
executor's error surfaces from a one-step run on the filled state; and
the halted outcome carries the stopped machine's exit code. -/
theorem c8_witness :
    run_go cdecode clen cend cexec none 3 demo_tm = .ok (.halted 0 demo_tm)
    ∧ run_go cdecode clen cend cexec none 1 bad_tm = .error .decodeError
    ∧ run_go cdecode clen cend fail_exec none 1 s1 = .error .memFault
    ∧ (demo_tm.machine.running = false ∧ 0 = demo_tm.machine.exit_code) := by
  obtain ⟨h1, h2, -, h4⟩ := c8_error_propagation cdecode clen cend cexec none
  obtain ⟨-, -, h3, -⟩ := c8_error_propagation cdecode clen cend fail_exec none
  refine ⟨h1 3 demo_tm rfl, ?_, ?_, ?_⟩
  · exact h2 0 bad_tm .decodeError rfl rfl
  · exact h3 0 s1 s1 8191 .memFault rfl rfl rfl
  · exact h4 3 demo_tm 0 demo_tm (h1 3 demo_tm rfl)

/-- C1: the claim fails on the code.  `demo_filled` holds a non-empty
trace in slot 8191 whose block [262136, 262144) overlaps the written
range [262143, 262144), yet `clear_traces 262143 1` leaves it in place
(and does not raise the cleared flag): the scan window runs from slot
8189 "through" slot 0, which wraps past the slot-index mask and is
empty, so no slot is visited at all. -/
theorem c1_code_bug :
    (demo_filled.traces 8191).instruction_count ≠ 0
    ∧ ¬(262143 + 1 ≤ (demo_filled.traces 8191).address
        ∨ (demo_filled.traces 8191).address + (demo_filled.traces 8191).length ≤ 262143)
    ∧ ((clear_traces demo_filled 262143 1).traces 8191).instruction_count ≠ 0
    ∧ (clear_traces demo_filled 262143 1).running_trace_cleared = false := by
  refine ⟨by decide, by decide, ?_, ?_⟩
  · have h : clear_traces demo_filled 262143 1 = demo_filled := rfl
    rw [h]; decide
  · have h : clear_traces demo_filled 262143 1 = demo_filled := rfl
    rw [h]
    rfl

/-- C2: the claim fails on the code.  On the demonstration program the
decode-every-step interpreter halts with exit code 7 (the store rewrites
the jump's target byte, so the fresh decode jumps to the halt), while
the trace-caching run loop never halts at any fuel: the stale cached
jump keeps sending the pc back to 262136 because the invalidation scan
window wraps at the slot-index boundary and never evicts the trace. -/
theorem c2_code_bug :
    plain_outcome (plain_run none 20 demo_machine) = some 7
    ∧ ∀ fuel, trace_outcome (run cdecode clen cend cexec none fuel demo_tm) = none := by
  refine ⟨by decide, ?_⟩
  intro fuel
  have hinit : run cdecode clen cend cexec none fuel demo_tm =
      run_go cdecode clen cend cexec none fuel s0 := rfl
  rw [hinit]
  cases fuel with
  | zero => rw [run_go_zero]; rfl
  | succ n =>
    have h1 : run_go cdecode clen cend cexec none (n + 1) s0 =
        run_go cdecode clen cend cexec none n s1 := by
      rw [run_go_succ, step_s0]
      rfl
    rw [h1, run_go_fix cdecode clen cend cexec none s1 rfl step_s1]
    rfl

/-- C5: the claim fails on the code.  In the first outer iteration from
`s0` the cached store writes address 262143, inside its own block
[262136, 262144) (the final memory byte 262143 is 0, the trace at slot
8191 still spans address 262136 with byte length 8 and 2 instructions),
yet the pass does not stop after the writing instruction: the cleared
flag stays false and the cached jump still executes, leaving the pc at
262136 instead of 262140.  And the next top-of-loop fetch does not
re-decode: `s1` is a fixpoint of `step`, i.e. the fetch is a stale
cache hit replaying the old jump (a fresh decode at 262140 against the
modified memory would set the pc to 65528). -/
theorem c5_code_bug :
    step_obs (step cdecode clen cend cexec none s0) =
      some (262136, false, 262136, 8, 2, 0)
    ∧ step cdecode clen cend cexec none s1 = .ok s1 := by
  refine ⟨?_, step_s1⟩
  rw [step_s0]
  rfl

end CkbVm

